import Mathlib

/-!
Verification development for a TCP message-board server
(`server.cpp`, `shared_state.h`).

Strings are modelled as `List Char`.  The three wire separators are the
byte sequences `}+{` (field delimiter), `}#{` (message separator) and
`}}&{{` (transmission terminator); brace characters are written with
`\x7b` / `\x7d` escapes throughout.

The pure protocol logic (splitting, parsing, response building, the
per-message step of the client session loop, the bounded event log) is
embedded directly from the source; socket I/O is modelled by making the
received bytes and the wall-clock timestamp explicit inputs.
-/

/-- Coerces a string literal to the `List Char` representation used here. -/
def str (s : String) : List Char := s.data

/-- Field delimiter `}+{` (server.cpp line 61). -/
def fieldDelimiter : List Char := str "\x7d+\x7b"

/-- Transmission terminator `}}&{{` (server.cpp line 65). -/
def transmissionTerminator : List Char := str "\x7d\x7d&\x7b\x7b"

/-- Message separator `}#{` (server.cpp line 69). -/
def messageSeperator : List Char := str "\x7d#\x7b"

/-- Client command enumeration (server.cpp lines 76-82). -/
inductive CLIENT_COMMANDS where
  | GET_BOARD
  | POST
  | INVALID_COMMAND
  | QUIT
deriving DecidableEq

/-- Command-string lookup table `kCmdFromStr` (server.cpp lines 86-91).
Note that the table also recognises the literal token `INVALID_COMMAND`. -/
def kCmdFromStr (s : List Char) : Option CLIENT_COMMANDS :=
  if s = str "GET_BOARD" then some CLIENT_COMMANDS.GET_BOARD
  else if s = str "POST" then some CLIENT_COMMANDS.POST
  else if s = str "INVALID_COMMAND" then some CLIENT_COMMANDS.INVALID_COMMAND
  else if s = str "QUIT" then some CLIENT_COMMANDS.QUIT
  else none

/-- A message-board post (shared_state.h lines 14-19). -/
structure Post where
  author : List Char
  title : List Char
  message : List Char
  clientId : Nat
deriving DecidableEq

/-- Result of parsing a client message (server.cpp lines 124-131). -/
structure ParseResult where
  ok : Bool
  error : List Char
  clientCmd : CLIENT_COMMANDS
  posts : List Post
  filter_author : List Char
  filter_title : List Char
deriving DecidableEq

/-- Position of the first occurrence of `pat` in `s`
(`std::string::find`, returning `none` for `npos`). -/
def findSub (pat : List Char) : List Char → Option Nat
  | [] => if pat.isPrefixOf [] then some 0 else none
  | c :: s => if pat.isPrefixOf (c :: s) then some 0 else (findSub pat s).map (· + 1)

/-- Substring `text.substr(start, stop - start)`. -/
def subSlice (text : List Char) (start stop : Nat) : List Char :=
  (text.drop start).take (stop - start)

/-- Fueled worker for `split_fields_until`; `fuel = endPos + 1` always
suffices for a non-empty delimiter because `start` grows each round. -/
def split_fields_untilAux (text delim : List Char) (endPos : Nat) :
    Nat → Nat → List (List Char)
  | 0, _ => []
  | fuel + 1, start =>
    if start ≤ endPos then
      match findSub delim (text.drop start) with
      | none => [subSlice text start endPos]
      | some off =>
        if start + off > endPos then [subSlice text start endPos]
        else
          subSlice text start (start + off) ::
            split_fields_untilAux text delim endPos fuel (start + off + delim.length)
    else []

/-- Splits `text` into fields on `delim`, processing up to `endPos`
(server.cpp lines 257-289, `split_fields_until`). -/
def split_fields_until (text delim : List Char) (endPos : Nat) : List (List Char) :=
  split_fields_untilAux text delim endPos (endPos + 1) 0

/-- Fueled worker for `replaceAll`; `fuel = s.length` suffices. -/
def replaceAllAux (pat rep : List Char) : Nat → List Char → List Char
  | 0, s => s
  | fuel + 1, s =>
    match findSub pat s with
    | none => s
    | some p => s.take p ++ rep ++ replaceAllAux pat rep fuel (s.drop (p + pat.length))

/-- Replaces every occurrence of `pat` by `rep`, scanning left to right and
resuming after each replacement (the `while`/`replace` loop of
server.cpp lines 419-424). -/
def replaceAll (pat rep s : List Char) : List Char := replaceAllAux pat rep s.length s

/-- Truncation of the message at the first transmission terminator
(server.cpp lines 396-418: `termPos` / `endPos` / `substr(0, endPos)`). -/
def truncAtTerminator (completeMessage : List Char) : List Char :=
  match findSub transmissionTerminator completeMessage with
  | some termPos => completeMessage.take termPos
  | none => completeMessage

/-- The normalised message: record separators `}#{` flattened into field
delimiters `}+{` (server.cpp lines 418-424, `messageToTokenize`). -/
def message_to_tokenize (completeMessage : List Char) : List Char :=
  replaceAll messageSeperator fieldDelimiter (truncAtTerminator completeMessage)

/-- The field list of a message (server.cpp line 427). -/
def message_fields (completeMessage : List Char) : List (List Char) :=
  split_fields_until (message_to_tokenize completeMessage) fieldDelimiter
    (message_to_tokenize completeMessage).length

/-- The POST payload extraction loop (server.cpp lines 503-522):
consumes `(author, title, message)` triples while at least three fields
remain, pushing a post per triple; an empty message field stops the scan
with the empty-body diagnostic.  Returns the posts pushed before any
error, together with the error, mirroring the partially filled
`res.posts` of the source. -/
def extract_posts : List (List Char) → List Post × Option (List Char)
  | author :: title :: message :: rest =>
    if message = [] then ([], some (str "POST message cannot be empty."))
    else
      let r := extract_posts rest
      ({ author := author, title := title, message := message, clientId := 0 } :: r.1, r.2)
  | _ => ([], none)

/-- Parser for a complete client message (server.cpp lines 375-547,
`parse_message`). -/
def parse_message (completeMessage : List Char) : ParseResult :=
  if completeMessage = [] then
    { ok := false, error := str "Empty message received.",
      clientCmd := CLIENT_COMMANDS.INVALID_COMMAND, posts := [],
      filter_author := [], filter_title := [] }
  else
    match message_fields completeMessage with
    | [] =>
      { ok := false, error := str "Malformed message: no fields found.",
        clientCmd := CLIENT_COMMANDS.INVALID_COMMAND, posts := [],
        filter_author := [], filter_title := [] }
    | commandStr :: rest =>
      match kCmdFromStr commandStr with
      | none =>
        { ok := false, error := str "Invalid command: " ++ commandStr,
          clientCmd := CLIENT_COMMANDS.INVALID_COMMAND, posts := [],
          filter_author := [], filter_title := [] }
      | some cmd =>
        if cmd = CLIENT_COMMANDS.GET_BOARD then
          { ok := true, error := [], clientCmd := cmd, posts := [],
            filter_author := (rest[0]?).getD [], filter_title := (rest[1]?).getD [] }
        else if cmd = CLIENT_COMMANDS.POST then
          if rest.length = 0 then
            { ok := false, error := str "POST contains no (Author, Title, Message) sets.",
              clientCmd := cmd, posts := [], filter_author := [], filter_title := [] }
          else if rest.length % 3 ≠ 0 then
            { ok := false, error := str "POST requires triples of Author, Title, Message.",
              clientCmd := cmd, posts := [], filter_author := [], filter_title := [] }
          else
            match extract_posts rest with
            | (ps, some e) =>
              { ok := false, error := e, clientCmd := cmd, posts := ps,
                filter_author := [], filter_title := [] }
            | (ps, none) =>
              { ok := true, error := [], clientCmd := cmd, posts := ps,
                filter_author := [], filter_title := [] }
        else if cmd = CLIENT_COMMANDS.QUIT then
          { ok := true, error := [], clientCmd := cmd, posts := [],
            filter_author := [], filter_title := [] }
        else
          { ok := false, error := str "Unhandled command or parsing error.",
            clientCmd := cmd, posts := [], filter_author := [], filter_title := [] }

/-- Success response builder (server.cpp lines 225-244, `build_post_ok`). -/
def build_post_ok : List Char :=
  let author : List Char := []
  let title : List Char := []
  let message : List Char := []
  str "POST_OK" ++ fieldDelimiter ++ author ++ fieldDelimiter ++ title ++
    fieldDelimiter ++ message ++ transmissionTerminator

/-- POST error response builder (server.cpp lines 691-709, `handle_post_error`). -/
def handle_post_error (errorMessage : List Char) : List Char :=
  let emptyAuthor : List Char := []
  let emptyTitle : List Char := []
  str "POST_ERROR" ++ fieldDelimiter ++ emptyAuthor ++ fieldDelimiter ++ emptyTitle ++
    fieldDelimiter ++ errorMessage ++ transmissionTerminator

/-- Shared board state touched by `post_handler`: the post sequence and the
`totalMessagesReceived` counter (shared_state.h lines 31, 43). -/
structure BoardState where
  messageBoard : List Post
  totalMessagesReceived : Nat
deriving DecidableEq

/-- POST command handler (server.cpp lines 142-198): rejects an empty batch,
otherwise appends every post tagged with the client id and bumps the
received counter once per post. -/
def post_handler (parsed : ParseResult) (clientId : Nat) (st : BoardState) :
    Except (List Char) BoardState :=
  if parsed.posts = [] then Except.error (str "No posts to add")
  else Except.ok
    { messageBoard := st.messageBoard ++ parsed.posts.map (fun p => { p with clientId := clientId }),
      totalMessagesReceived := st.totalMessagesReceived + parsed.posts.length }

/-- Filter acceptance used by the GET_BOARD loop: the negations of the two
`continue` conditions of server.cpp lines 332-335. -/
def matchesFilter (authorFilter titleFilter : List Char) (post : Post) : Bool :=
  !(!authorFilter.isEmpty && post.author != authorFilter) &&
    !(!titleFilter.isEmpty && post.title != titleFilter)

/-- Wire encoding of one post inside a GET_BOARD response
(server.cpp line 348). -/
def encPost (post : Post) : List Char :=
  fieldDelimiter ++ post.author ++ fieldDelimiter ++ post.title ++
    fieldDelimiter ++ post.message

/-- The GET_BOARD accumulation loop with its `firstPost` flag
(server.cpp lines 327-349). -/
def get_board_loop (authorFilter titleFilter : List Char) :
    List Post → Bool → List Char
  | [], _ => []
  | post :: rest, firstPost =>
    if matchesFilter authorFilter titleFilter post then
      (if firstPost then [] else messageSeperator) ++ encPost post ++
        get_board_loop authorFilter titleFilter rest false
    else get_board_loop authorFilter titleFilter rest firstPost

/-- GET_BOARD command handler (server.cpp lines 301-361): command token,
then each matching post, then the terminator. -/
def get_board_handler (authorFilter titleFilter : List Char)
    (messageBoard : List Post) : List Char :=
  str "GET_BOARD" ++ get_board_loop authorFilter titleFilter messageBoard true ++
    transmissionTerminator

/-- Buffer step of `read_message_until_terminator`
(server.cpp lines 608-655): when the accumulated buffer contains the
terminator, the bytes before its first occurrence become the completed
message and they are erased from the buffer together with the terminator.
Returns `(completedMessage, remaining buffer)`; `none` models the case in
which the function must block on `recv` for more bytes. -/
def read_message_until_terminator (messageBuffer terminator : List Char) :
    Option (List Char × List Char) :=
  match findSub terminator messageBuffer with
  | some pos =>
    some (messageBuffer.take pos, messageBuffer.drop (pos + terminator.length))
  | none => none

/-- Request dispatcher (server.cpp lines 721-820, `handle_client_request`):
returns the response transmission and the updated board state. -/
def handle_client_request (parsed : ParseResult) (clientId : Nat) (st : BoardState) :
    List Char × BoardState :=
  if parsed.ok = false then
    (str "INVALID_COMMAND" ++ fieldDelimiter ++ fieldDelimiter ++ fieldDelimiter ++
      parsed.error ++ transmissionTerminator, st)
  else
    match parsed.clientCmd with
    | CLIENT_COMMANDS.GET_BOARD =>
      (get_board_handler parsed.filter_author parsed.filter_title st.messageBoard, st)
    | CLIENT_COMMANDS.POST =>
      match post_handler parsed clientId st with
      | Except.error e => (handle_post_error e, st)
      | Except.ok st' => (build_post_ok, st')
    | CLIENT_COMMANDS.QUIT => ([], st)
    | CLIENT_COMMANDS.INVALID_COMMAND =>
      (str "INVALID_COMMAND" ++ fieldDelimiter ++ fieldDelimiter ++ fieldDelimiter ++
        str "Error, unable to interpret command - make sure to use accepted legitimate commands!" ++
        transmissionTerminator, st)

/-- One iteration of the client session loop on a completed message
(server.cpp lines 864-937): parse, answer QUIT with the goodbye
transmission and stop, otherwise dispatch through
`handle_client_request` and keep running.  Returns
`(response, new board state, keepRunning)`. -/
def session_step (st : BoardState) (clientId : Nat) (completedMessage : List Char) :
    List Char × BoardState × Bool :=
  let parsed := parse_message completedMessage
  if parsed.ok = true ∧ parsed.clientCmd = CLIENT_COMMANDS.QUIT then
    (str "QUIT" ++ fieldDelimiter ++ str "SERVER" ++ fieldDelimiter ++ str "BYE!!!" ++
      fieldDelimiter ++ str "Server says: BYE!!!" ++ transmissionTerminator, st, false)
  else
    let r := handle_client_request parsed clientId st
    (r.1, r.2, true)

/-- An event-log record (shared_state.h lines 22-27). -/
structure ServerEvent where
  timestamp : List Char
  event_type : List Char
  message : List Char
  raw_message : List Char
deriving DecidableEq

/-- Event logger (shared_state.h lines 50-66, `logEvent`): appends the
record at the back of the log and pops the front when the size passes
100.  The wall-clock timestamp produced by `strftime` is modelled as the
explicit input `timestamp`. -/
def logEvent (eventLog : List ServerEvent)
    (timestamp event_type message raw_message : List Char) : List ServerEvent :=
  let l := eventLog ++
    [{ timestamp := timestamp, event_type := event_type, message := message,
       raw_message := raw_message }]
  if 100 < l.length then l.drop 1 else l

/-- Fueled worker for `splitOnSub`; `fuel = s.length` suffices for a
non-empty pattern. -/
def splitOnSubAux (pat : List Char) : Nat → List Char → List (List Char)
  | 0, s => [s]
  | fuel + 1, s =>
    match findSub pat s with
    | none => [s]
    | some p => s.take p :: splitOnSubAux pat fuel (s.drop (p + pat.length))

/-- Splits `s` at every occurrence of `pat` (occurrences located left to
right, scanning resuming after each match).  This is the decoding-side
split used to read server responses back. -/
def splitOnSub (pat s : List Char) : List (List Char) := splitOnSubAux pat s.length s

/-- A pattern has no self-overlap when none of its proper nonempty
suffixes is one of its prefixes.  All three wire separators satisfy
this, which makes occurrence positions in concatenations unambiguous. -/
def NoSelfOverlap (pat : List Char) : Prop :=
  ∀ k < pat.length, 0 < k → ¬ pat.drop k <+: pat

/-- A byte sequence free of all three wire separators. -/
abbrev sepFree (s : List Char) : Prop :=
  findSub fieldDelimiter s = none ∧ findSub messageSeperator s = none ∧
    findSub transmissionTerminator s = none

/-- All three fields of a post are separator-free. -/
abbrev sepFreePost (p : Post) : Prop :=
  sepFree p.author ∧ sepFree p.title ∧ sepFree p.message

/-- Removes a required token from the front of a response. -/
def stripTok (tok s : List Char) : Option (List Char) :=
  if tok.isPrefixOf s then some (s.drop tok.length) else none

/-- Decodes one GET_BOARD record: a record is a leading empty field
followed by author, title and body (the response places a field
delimiter directly after the command token and after each record
separator). -/
def recordToTriple (record : List Char) :
    Option (List Char × List Char × List Char) :=
  match splitOnSub fieldDelimiter record with
  | [f0, author, title, body] => if f0 = [] then some (author, title, body) else none
  | _ => none

/-- Option-valued map over a list, failing if any element fails. -/
def mapOption (f : α → Option β) : List α → Option (List β)
  | [] => some []
  | x :: xs =>
    match f x, mapOption f xs with
    | some y, some ys => some (y :: ys)
    | _, _ => none

/-- Decoder for a GET_BOARD response, following the wire format: the bytes
between the `GET_BOARD` token and the first transmission terminator are
split on the record separator, and every record yields one
author/title/body triple. -/
def decode_board_response (response : List Char) :
    Option (List (List Char × List Char × List Char)) :=
  match stripTok (str "GET_BOARD") response with
  | none => none
  | some rest =>
    match findSub transmissionTerminator rest with
    | none => none
    | some p =>
      let mid := rest.take p
      if mid = [] then some []
      else mapOption recordToTriple (splitOnSub messageSeperator mid)

/-- Specification-side form of the GET_BOARD response: the command token,
the encodings of the matching posts in order joined by the record
separator (no separator before the first), then the terminator. -/
def get_board_spec (authorFilter titleFilter : List Char)
    (messageBoard : List Post) : List Char :=
  str "GET_BOARD" ++
    List.intercalate messageSeperator
      ((messageBoard.filter (matchesFilter authorFilter titleFilter)).map encPost) ++
    transmissionTerminator

/-! ### Basic properties of `findSub` -/

theorem findSub_nil (pat : List Char) (hne : pat ≠ []) : findSub pat [] = none := by
  cases pat with
  | nil => exact absurd rfl hne
  | cons a l => simp [findSub, List.isPrefixOf]

theorem findSub_eq_none_iff (pat s : List Char) :
    findSub pat s = none ↔ ∀ i : Nat, ¬ pat <+: s.drop i := by
  induction s with
  | nil =>
    by_cases h : pat <+: ([] : List Char)
    · simp only [findSub]
      rw [if_pos (by simpa using h)]
      simp only [List.drop_nil]
      constructor
      · intro hc; cases hc
      · intro hall; exact absurd h (hall 0)
    · simp only [findSub]
      rw [if_neg (by simpa using h)]
      simp only [List.drop_nil]
      constructor
      · intro _ i; exact h
      · intro _; trivial
  | cons c s ih =>
    by_cases h : pat <+: (c :: s)
    · simp only [findSub]
      rw [if_pos (by simpa using h)]
      constructor
      · intro hc; cases hc
      · intro hall; exact absurd (show pat <+: (c :: s).drop 0 by simpa using h) (hall 0)
    · simp only [findSub]
      rw [if_neg (by simpa using h)]
      rw [Option.map_eq_none', ih]
      constructor
      · intro hall i
        cases i with
        | zero => simpa using h
        | succ j => simpa using hall j
      · intro hall j
        simpa using hall (j + 1)

theorem findSub_eq_some (pat s : List Char) (p : Nat) (h : findSub pat s = some p) :
    pat <+: s.drop p ∧ ∀ j < p, ¬ pat <+: s.drop j := by
  induction s generalizing p with
  | nil =>
    simp only [findSub] at h
    split at h
    · cases h
      refine ⟨by simpa using ‹pat.isPrefixOf [] = true›, ?_⟩
      intro j hj; omega
    · cases h
  | cons c s ih =>
    simp only [findSub] at h
    split at h
    · cases h
      refine ⟨by simpa using ‹pat.isPrefixOf (c :: s) = true›, ?_⟩
      intro j hj; omega
    · rw [Option.map_eq_some'] at h
      obtain ⟨q, hq, rfl⟩ := h
      obtain ⟨h1, h2⟩ := ih q hq
      refine ⟨by simpa using h1, ?_⟩
      intro j hj
      cases j with
      | zero =>
        intro hc
        exact absurd (by simpa using hc) (by simpa using ‹¬ pat.isPrefixOf (c :: s) = true›)
      | succ j' =>
        intro hc
        exact h2 j' (by omega) (by simpa using hc)

theorem findSub_bound (pat s : List Char) (p : Nat) (hne : pat ≠ [])
    (h : findSub pat s = some p) : p + pat.length ≤ s.length := by
  have h1 : pat <+: s.drop p := (findSub_eq_some pat s p h).1
  have h2 : pat.length ≤ (s.drop p).length := h1.length_le
  have h3 : 0 < pat.length := List.length_pos.mpr hne
  simp only [List.length_drop] at h2
  omega

theorem prefix_of_append_of_length_le {d u v : List Char}
    (h : d <+: u ++ v) (hle : d.length ≤ u.length) : d <+: u := by
  have h1 : d = (u ++ v).take d.length := List.prefix_iff_eq_take.mp h
  have h2 : (u ++ v).take d.length = u.take d.length :=
    List.take_append_of_le_length hle
  rw [h1, h2]
  exact List.take_prefix _ _

theorem prefix_decompose {d x z : List Char} (h : d <+: x ++ z)
    (hlt : x.length < d.length) : x <+: d ∧ d.drop x.length <+: z := by
  have hx : x <+: d :=
    List.prefix_of_prefix_length_le (List.prefix_append x z) h (Nat.le_of_lt hlt)
  refine ⟨hx, ?_⟩
  have hd : x ++ d.drop x.length = d := List.prefix_iff_eq_append.mp hx
  obtain ⟨t, ht⟩ := h
  have hxz : x ++ z = x ++ (d.drop x.length ++ t) := by
    rw [← List.append_assoc, hd, ht]
  exact ⟨t, (List.append_cancel_left hxz).symm⟩

theorem findSub_append_spec (pat x y : List Char) (hne : pat ≠ [])
    (hov : NoSelfOverlap pat) (hx : ∀ i : Nat, ¬ pat <+: x.drop i) :
    findSub pat (x ++ (pat ++ y)) = some x.length := by
  induction x with
  | nil =>
    cases pat with
    | nil => exact absurd rfl hne
    | cons a l =>
      show findSub (a :: l) (a :: (l ++ y)) = some 0
      simp only [findSub]
      rw [if_pos (by simp)]
  | cons c x' ih =>
    have hnp : ¬ pat <+: (c :: x') ++ (pat ++ y) := by
      intro hp
      by_cases hle : pat.length ≤ (c :: x').length
      · exact hx 0 (by rw [List.drop_zero]; exact prefix_of_append_of_length_le hp hle)
      · push_neg at hle
        obtain ⟨hxp, hdp⟩ := prefix_decompose hp hle
        have h2 : pat.drop (c :: x').length <+: pat :=
          prefix_of_append_of_length_le hdp (by simp)
        exact hov (c :: x').length hle (by simp) h2
    have hx' : ∀ i : Nat, ¬ pat <+: x'.drop i := by
      intro i; simpa using hx (i + 1)
    have ih' := ih hx'
    show findSub pat (c :: (x' ++ (pat ++ y))) = some (x'.length + 1)
    simp only [findSub]
    rw [if_neg (by simpa using hnp), ih']
    rfl

theorem findSub_append_none (pat u v : List Char)
    (hu : findSub pat u = none) (hv : findSub pat v = none)
    (hstr : ∀ k, 0 < k → k < pat.length → ¬ (pat.take k <:+ u ∧ pat.drop k <+: v)) :
    findSub pat (u ++ v) = none := by
  rw [findSub_eq_none_iff] at hu hv ⊢
  intro i hp
  rcases Nat.lt_or_ge i u.length with hi | hi
  · rw [List.drop_append_eq_append_drop] at hp
    have hiz : i - u.length = 0 := by omega
    rw [hiz, List.drop_zero] at hp
    by_cases hle : pat.length ≤ (u.drop i).length
    · exact hu i (prefix_of_append_of_length_le hp hle)
    · push_neg at hle
      obtain ⟨hxp, hdp⟩ := prefix_decompose hp hle
      have hkpos : 0 < (u.drop i).length := by
        simp only [List.length_drop]; omega
      refine hstr (u.drop i).length hkpos hle ⟨?_, hdp⟩
      have heq : pat.take (u.drop i).length = u.drop i :=
        (List.prefix_iff_eq_take.mp hxp).symm
      rw [heq]
      exact List.drop_suffix i u
  · rw [List.drop_append_eq_append_drop] at hp
    have hz : u.drop i = [] := List.drop_eq_nil_of_le hi
    rw [hz, List.nil_append] at hp
    exact hv (i - u.length) hp

/-! ### Fuel irrelevance and splitting equations for `splitOnSub` -/

theorem splitOnSubAux_fuel (pat : List Char) (hne : pat ≠ []) :
    ∀ f₁ f₂ (s : List Char), s.length ≤ f₁ → s.length ≤ f₂ →
      splitOnSubAux pat f₁ s = splitOnSubAux pat f₂ s := by
  intro f₁
  induction f₁ with
  | zero =>
    intro f₂ s h1 h2
    have hs : s = [] := List.eq_nil_of_length_eq_zero (Nat.le_zero.mp h1)
    subst hs
    cases f₂ with
    | zero => rfl
    | succ g => simp [splitOnSubAux, findSub_nil pat hne]
  | succ f ih =>
    intro f₂ s h1 h2
    cases f₂ with
    | zero =>
      have hs : s = [] := List.eq_nil_of_length_eq_zero (Nat.le_zero.mp h2)
      subst hs
      simp [splitOnSubAux, findSub_nil pat hne]
    | succ g =>
      simp only [splitOnSubAux]
      cases hfind : findSub pat s with
      | none => rfl
      | some p =>
        have hb := findSub_bound pat s p hne hfind
        have hpos : 0 < pat.length := List.length_pos.mpr hne
        have hl1 : (s.drop (p + pat.length)).length ≤ f := by
          simp only [List.length_drop]; omega
        have hl2 : (s.drop (p + pat.length)).length ≤ g := by
          simp only [List.length_drop]; omega
        dsimp only
        rw [ih g _ hl1 hl2]

theorem splitOnSub_eq_single (pat s : List Char) (h : findSub pat s = none) :
    splitOnSub pat s = [s] := by
  unfold splitOnSub
  cases hl : s.length with
  | zero => simp [splitOnSubAux]
  | succ n => simp [splitOnSubAux, h]

theorem splitOnSub_append (pat x y : List Char) (hne : pat ≠ [])
    (hov : NoSelfOverlap pat) (hx : findSub pat x = none) :
    splitOnSub pat (x ++ (pat ++ y)) = x :: splitOnSub pat y := by
  have hfind : findSub pat (x ++ (pat ++ y)) = some x.length :=
    findSub_append_spec pat x y hne hov ((findSub_eq_none_iff pat x).mp hx)
  have hpos : 0 < pat.length := List.length_pos.mpr hne
  have hlen : (x ++ (pat ++ y)).length = x.length + (pat.length + y.length) := by
    simp
  have hne0 : (x ++ (pat ++ y)).length ≠ 0 := by omega
  obtain ⟨n, hn⟩ := Nat.exists_eq_succ_of_ne_zero hne0
  unfold splitOnSub
  rw [hn]
  simp only [splitOnSubAux, hfind]
  rw [List.take_left]
  have hdrop : (x ++ (pat ++ y)).drop (x.length + pat.length) = y := by
    rw [← List.append_assoc, ← List.length_append, List.drop_left]
  rw [hdrop]
  rw [splitOnSubAux_fuel pat hne n y.length y (by omega) (Nat.le_refl _)]

/-! ### Concrete facts about the three wire separators -/

theorem noSelfOverlap_term : NoSelfOverlap transmissionTerminator := by
  unfold NoSelfOverlap; decide

theorem noSelfOverlap_sep : NoSelfOverlap messageSeperator := by
  unfold NoSelfOverlap; decide

theorem noSelfOverlap_fd : NoSelfOverlap fieldDelimiter := by
  unfold NoSelfOverlap; decide

theorem term_ne_nil : transmissionTerminator ≠ [] := by decide

theorem sep_ne_nil : messageSeperator ≠ [] := by decide

theorem fd_ne_nil : fieldDelimiter ≠ [] := by decide

theorem not_prefix_of_head_ne {a b : Char} {l₁ l₂ : List Char} (h : a ≠ b) :
    ¬ (a :: l₁) <+: (b :: l₂) := by
  intro hc; rw [List.cons_prefix_cons] at hc; exact h hc.1

theorem not_prefix_of_second_ne {a b c d : Char} {l₁ l₂ : List Char} (h : b ≠ d) :
    ¬ (a :: b :: l₁) <+: (c :: d :: l₂) := by
  intro hc
  rw [List.cons_prefix_cons, List.cons_prefix_cons] at hc
  exact h hc.2.1

theorem term_take_fd : ∀ k < transmissionTerminator.length, 0 < k →
    ¬ transmissionTerminator.take k <:+ fieldDelimiter := by decide

theorem term_take_sep : ∀ k < transmissionTerminator.length, 0 < k →
    ¬ transmissionTerminator.take k <:+ messageSeperator := by decide

theorem sep_take_fd : ∀ k < messageSeperator.length, 0 < k →
    ¬ messageSeperator.take k <:+ fieldDelimiter := by decide

theorem term_drop_fd_append (Z : List Char) :
    ∀ k, 0 < k → k < transmissionTerminator.length →
      ¬ transmissionTerminator.drop k <+: fieldDelimiter ++ Z := by
  intro k h1 h2
  have h5 : transmissionTerminator.length = 5 := by decide
  rw [h5] at h2
  interval_cases k
  · exact not_prefix_of_second_ne (by decide)
  · exact not_prefix_of_head_ne (by decide)
  · exact not_prefix_of_head_ne (by decide)
  · exact not_prefix_of_head_ne (by decide)

theorem term_drop_sep_append (Z : List Char) :
    ∀ k, 0 < k → k < transmissionTerminator.length →
      ¬ transmissionTerminator.drop k <+: messageSeperator ++ Z := by
  intro k h1 h2
  have h5 : transmissionTerminator.length = 5 := by decide
  rw [h5] at h2
  interval_cases k
  · exact not_prefix_of_second_ne (by decide)
  · exact not_prefix_of_head_ne (by decide)
  · exact not_prefix_of_head_ne (by decide)
  · exact not_prefix_of_head_ne (by decide)

theorem sep_drop_fd_append (Z : List Char) :
    ∀ k, 0 < k → k < messageSeperator.length →
      ¬ messageSeperator.drop k <+: fieldDelimiter ++ Z := by
  intro k h1 h2
  have h3 : messageSeperator.length = 3 := by decide
  rw [h3] at h2
  interval_cases k
  · exact not_prefix_of_head_ne (by decide)
  · exact not_prefix_of_head_ne (by decide)

/-! ### Absence of separators in encoded records and boards -/

theorem encPost_assoc (p : Post) :
    encPost p = fieldDelimiter ++ (p.author ++ (fieldDelimiter ++
      (p.title ++ (fieldDelimiter ++ p.message)))) := by
  simp [encPost, List.append_assoc]

theorem findSub_sep_fd_append (Z : List Char)
    (hZ : findSub messageSeperator Z = none) :
    findSub messageSeperator (fieldDelimiter ++ Z) = none := by
  refine findSub_append_none _ _ _ (by decide) hZ ?_
  intro k h1 h2 hand
  exact sep_take_fd k h2 h1 hand.1

theorem findSub_sep_field_append (x Z : List Char)
    (hx : findSub messageSeperator x = none)
    (hZ : findSub messageSeperator (fieldDelimiter ++ Z) = none) :
    findSub messageSeperator (x ++ (fieldDelimiter ++ Z)) = none := by
  refine findSub_append_none _ _ _ hx hZ ?_
  intro k h1 h2 hand
  exact sep_drop_fd_append Z k h1 h2 hand.2

theorem findSub_sep_encPost (p : Post) (hp : sepFreePost p) :
    findSub messageSeperator (encPost p) = none := by
  obtain ⟨ha, ht, hb⟩ := hp
  rw [encPost_assoc]
  exact findSub_sep_fd_append _
    (findSub_sep_field_append _ _ ha.2.1
      (findSub_sep_fd_append _
        (findSub_sep_field_append _ _ ht.2.1
          (findSub_sep_fd_append _ hb.2.1))))

theorem findSub_term_fd_append (Z : List Char)
    (hZ : findSub transmissionTerminator Z = none) :
    findSub transmissionTerminator (fieldDelimiter ++ Z) = none := by
  refine findSub_append_none _ _ _ (by decide) hZ ?_
  intro k h1 h2 hand
  exact term_take_fd k h2 h1 hand.1

theorem findSub_term_sep_append (Z : List Char)
    (hZ : findSub transmissionTerminator Z = none) :
    findSub transmissionTerminator (messageSeperator ++ Z) = none := by
  refine findSub_append_none _ _ _ (by decide) hZ ?_
  intro k h1 h2 hand
  exact term_take_sep k h2 h1 hand.1

theorem findSub_term_field_fd (x Z : List Char)
    (hx : findSub transmissionTerminator x = none)
    (hZ : findSub transmissionTerminator (fieldDelimiter ++ Z) = none) :
    findSub transmissionTerminator (x ++ (fieldDelimiter ++ Z)) = none := by
  refine findSub_append_none _ _ _ hx hZ ?_
  intro k h1 h2 hand
  exact term_drop_fd_append Z k h1 h2 hand.2

theorem findSub_term_field_sep (x Z : List Char)
    (hx : findSub transmissionTerminator x = none)
    (hZ : findSub transmissionTerminator (messageSeperator ++ Z) = none) :
    findSub transmissionTerminator (x ++ (messageSeperator ++ Z)) = none := by
  refine findSub_append_none _ _ _ hx hZ ?_
  intro k h1 h2 hand
  exact term_drop_sep_append Z k h1 h2 hand.2

theorem findSub_term_encPost (p : Post) (hp : sepFreePost p) :
    findSub transmissionTerminator (encPost p) = none := by
  obtain ⟨ha, ht, hb⟩ := hp
  rw [encPost_assoc]
  exact findSub_term_fd_append _
    (findSub_term_field_fd _ _ ha.2.2
      (findSub_term_fd_append _
        (findSub_term_field_fd _ _ ht.2.2
          (findSub_term_fd_append _ hb.2.2))))

/-! ### Intercalate helpers -/

theorem intercalate_nil_eq (sep : List Char) :
    List.intercalate sep ([] : List (List Char)) = [] := rfl

theorem intercalate_single (sep x : List Char) :
    List.intercalate sep [x] = x := by
  simp [List.intercalate, List.intersperse]

theorem intercalate_cons₂ (sep x y : List Char) (l : List (List Char)) :
    List.intercalate sep (x :: y :: l) =
      x ++ (sep ++ List.intercalate sep (y :: l)) := by
  simp [List.intercalate, List.intersperse]

theorem findSub_term_intercalate (ps : List Post)
    (hps : ∀ p ∈ ps, sepFreePost p) :
    findSub transmissionTerminator
      (List.intercalate messageSeperator (ps.map encPost)) = none := by
  induction ps with
  | nil =>
    rw [List.map_nil, intercalate_nil_eq]
    exact findSub_nil _ term_ne_nil
  | cons p rest ih =>
    cases rest with
    | nil =>
      rw [List.map_cons, List.map_nil, intercalate_single]
      exact findSub_term_encPost p (hps p (List.mem_cons_self p []))
    | cons q rest' =>
      rw [List.map_cons, List.map_cons, intercalate_cons₂]
      refine findSub_term_field_sep _ _
        (findSub_term_encPost p (hps p (List.mem_cons_self _ _)))
        (findSub_term_sep_append _ ?_)
      rw [← List.map_cons]
      exact ih (fun r hr => hps r (List.mem_cons_of_mem _ hr))

theorem splitOnSub_sep_intercalate (ps : List Post)
    (hps : ∀ p ∈ ps, sepFreePost p) :
    ps ≠ [] →
    splitOnSub messageSeperator
      (List.intercalate messageSeperator (ps.map encPost)) = ps.map encPost := by
  induction ps with
  | nil => intro h; exact absurd rfl h
  | cons p rest ih =>
    intro _
    cases rest with
    | nil =>
      rw [List.map_cons, List.map_nil, intercalate_single]
      rw [splitOnSub_eq_single _ _ (findSub_sep_encPost p (hps p (List.mem_cons_self _ _)))]
    | cons q rest' =>
      rw [List.map_cons, List.map_cons, intercalate_cons₂]
      rw [splitOnSub_append _ _ _ sep_ne_nil noSelfOverlap_sep
        (findSub_sep_encPost p (hps p (List.mem_cons_self _ _)))]
      rw [← List.map_cons]
      rw [ih (fun r hr => hps r (List.mem_cons_of_mem _ hr)) (by simp)]

theorem splitOnSub_fd_encPost (p : Post) (hp : sepFreePost p) :
    splitOnSub fieldDelimiter (encPost p) =
      [[], p.author, p.title, p.message] := by
  obtain ⟨ha, ht, hb⟩ := hp
  rw [encPost_assoc]
  have e1 := splitOnSub_append fieldDelimiter []
    (p.author ++ (fieldDelimiter ++ (p.title ++ (fieldDelimiter ++ p.message))))
    fd_ne_nil noSelfOverlap_fd (findSub_nil _ fd_ne_nil)
  rw [List.nil_append] at e1
  rw [e1]
  rw [splitOnSub_append _ _ _ fd_ne_nil noSelfOverlap_fd ha.1]
  rw [splitOnSub_append _ _ _ fd_ne_nil noSelfOverlap_fd ht.1]
  rw [splitOnSub_eq_single _ _ hb.1]

theorem recordToTriple_encPost (p : Post) (hp : sepFreePost p) :
    recordToTriple (encPost p) = some (p.author, p.title, p.message) := by
  unfold recordToTriple
  rw [splitOnSub_fd_encPost p hp]
  simp

theorem mapOption_map {α β γ : Type} (f : β → Option γ) (g : α → β) (h : α → γ)
    (l : List α) (hl : ∀ x ∈ l, f (g x) = some (h x)) :
    mapOption f (l.map g) = some (l.map h) := by
  induction l with
  | nil => rfl
  | cons x xs ih =>
    rw [List.map_cons, List.map_cons]
    simp only [mapOption]
    rw [hl x (List.mem_cons_self _ _),
      ih (fun y hy => hl y (List.mem_cons_of_mem _ hy))]

/-! ### The GET_BOARD loop versus filter/intercalate -/

theorem get_board_loop_eq (af tf : List Char) (l : List Post) :
    get_board_loop af tf l true =
      List.intercalate messageSeperator ((l.filter (matchesFilter af tf)).map encPost) ∧
    get_board_loop af tf l false =
      (if l.filter (matchesFilter af tf) = [] then []
       else messageSeperator ++
         List.intercalate messageSeperator ((l.filter (matchesFilter af tf)).map encPost)) := by
  induction l with
  | nil => exact ⟨rfl, rfl⟩
  | cons p rest ih =>
    by_cases hm : matchesFilter af tf p
    · rw [List.filter_cons_of_pos hm, List.map_cons]
      have h1 : get_board_loop af tf (p :: rest) true =
          encPost p ++ get_board_loop af tf rest false := by
        simp [get_board_loop, hm]
      have h2 : get_board_loop af tf (p :: rest) false =
          messageSeperator ++ (encPost p ++ get_board_loop af tf rest false) := by
        simp [get_board_loop, hm, List.append_assoc]
      constructor
      · rw [h1, ih.2]
        by_cases hr : rest.filter (matchesFilter af tf) = []
        · rw [if_pos hr, hr, List.map_nil, intercalate_single, List.append_nil]
        · obtain ⟨q, qs, hq⟩ := List.exists_cons_of_ne_nil hr
          rw [if_neg hr, hq, List.map_cons, intercalate_cons₂]
      · rw [h2, ih.2]
        have hne : p :: rest.filter (matchesFilter af tf) ≠ [] := by simp
        rw [if_neg hne]
        by_cases hr : rest.filter (matchesFilter af tf) = []
        · rw [if_pos hr, hr, List.map_nil, intercalate_single, List.append_nil]
        · obtain ⟨q, qs, hq⟩ := List.exists_cons_of_ne_nil hr
          rw [if_neg hr, hq, List.map_cons, intercalate_cons₂]
    · rw [List.filter_cons_of_neg hm]
      have h1 : get_board_loop af tf (p :: rest) true =
          get_board_loop af tf rest true := by
        simp [get_board_loop, hm]
      have h2 : get_board_loop af tf (p :: rest) false =
          get_board_loop af tf rest false := by
        simp [get_board_loop, hm]
      exact ⟨h1.trans ih.1, h2.trans ih.2⟩

/-! ### Decoding an encoded board -/

theorem encPost_ne_nil (p : Post) : encPost p ≠ [] := by
  rw [encPost_assoc]
  simp [fd_ne_nil]

theorem intercalate_cons_ne_nil (sep x : List Char) (l : List (List Char))
    (hx : x ≠ []) : List.intercalate sep (x :: l) ≠ [] := by
  cases l with
  | nil => rw [intercalate_single]; exact hx
  | cons y l' =>
    rw [intercalate_cons₂]
    simp [hx]

theorem stripTok_append (tok X : List Char) : stripTok tok (tok ++ X) = some X := by
  unfold stripTok
  rw [if_pos (by simp), List.drop_left]

theorem decode_encode_board (ps : List Post) (hps : ∀ p ∈ ps, sepFreePost p) :
    decode_board_response (str "GET_BOARD" ++
      List.intercalate messageSeperator (ps.map encPost) ++ transmissionTerminator) =
      some (ps.map (fun p => (p.author, p.title, p.message))) := by
  cases ps with
  | nil => decide
  | cons q qs =>
    have hq : sepFreePost q := hps q (List.mem_cons_self _ _)
    have hmidne : List.intercalate messageSeperator ((q :: qs).map encPost) ≠ [] := by
      rw [List.map_cons]
      exact intercalate_cons_ne_nil _ _ _ (encPost_ne_nil q)
    have hmidfree := findSub_term_intercalate (q :: qs) hps
    rw [List.append_assoc]
    unfold decode_board_response
    rw [stripTok_append]
    dsimp only
    have hfind : findSub transmissionTerminator
        (List.intercalate messageSeperator ((q :: qs).map encPost) ++ transmissionTerminator) =
        some (List.intercalate messageSeperator ((q :: qs).map encPost)).length := by
      have h := findSub_append_spec transmissionTerminator
        (List.intercalate messageSeperator ((q :: qs).map encPost)) []
        term_ne_nil noSelfOverlap_term ((findSub_eq_none_iff _ _).mp hmidfree)
      simpa using h
    rw [hfind]
    simp only [List.take_left]
    rw [if_neg hmidne]
    rw [splitOnSub_sep_intercalate (q :: qs) hps (by simp)]
    exact mapOption_map _ _ _ _ (fun p hp => recordToTriple_encPost p (hps p hp))

/-- C4: for every board state and every filter pair, `get_board_handler`
returns exactly the token `GET_BOARD`, followed for each post in insertion
order matching the filters (byte-exact equality against each non-empty
filter; an empty filter matches all posts) by `}#{` (omitted before the
first matching post) then `}+{author}+{title}+{body`, followed by the
terminator `}}&{{`. -/
theorem C4_get_board_format (authorFilter titleFilter : List Char)
    (messageBoard : List Post) :
    get_board_handler authorFilter titleFilter messageBoard =
      get_board_spec authorFilter titleFilter messageBoard := by
  unfold get_board_handler get_board_spec
  rw [(get_board_loop_eq authorFilter titleFilter messageBoard).1]

/-- C8: for every GET_BOARD response produced by `get_board_handler` from
posts whose author, title and body contain none of the three separator
sequences, decoding the response (splitting the bytes between the
`GET_BOARD` token and the terminator on the separators) recovers exactly
the author/title/body triples of the posts that satisfy the filter
predicate, in insertion order. -/
theorem C8_get_board_roundtrip (authorFilter titleFilter : List Char)
    (messageBoard : List Post) (hfree : ∀ p ∈ messageBoard, sepFreePost p) :
    decode_board_response (get_board_handler authorFilter titleFilter messageBoard) =
      some ((messageBoard.filter (matchesFilter authorFilter titleFilter)).map
        (fun p => (p.author, p.title, p.message))) := by
  have h := (get_board_loop_eq authorFilter titleFilter messageBoard).1
  unfold get_board_handler
  rw [h]
  exact decode_encode_board _ (fun p hp => hfree p (List.mem_of_mem_filter hp))

/-- Witness for C8 at a concrete two-post board with an author filter. -/
theorem C8_witness :
    (∀ p ∈ [Post.mk (str "Alice") (str "Hi") (str "hello") 1,
            Post.mk (str "Bob") (str "T2") (str "b2") 2], sepFreePost p) ∧
    decode_board_response (get_board_handler (str "Alice") []
        [Post.mk (str "Alice") (str "Hi") (str "hello") 1,
         Post.mk (str "Bob") (str "T2") (str "b2") 2]) =
      some (([Post.mk (str "Alice") (str "Hi") (str "hello") 1,
              Post.mk (str "Bob") (str "T2") (str "b2") 2].filter
          (matchesFilter (str "Alice") [])).map
        (fun p => (p.author, p.title, p.message))) := by
  have hfree : ∀ p ∈ [Post.mk (str "Alice") (str "Hi") (str "hello") 1,
      Post.mk (str "Bob") (str "T2") (str "b2") 2], sepFreePost p := by
    decide
  exact ⟨hfree, C8_get_board_roundtrip (str "Alice") []
    [Post.mk (str "Alice") (str "Hi") (str "hello") 1,
     Post.mk (str "Bob") (str "T2") (str "b2") 2] hfree⟩

/-! ### Properties of the POST extraction loop -/

theorem extract_posts_none_iff : ∀ (l : List (List Char)), l.length % 3 = 0 →
    ((extract_posts l).2 = none ↔ ∀ k b, l[3 * k + 2]? = some b → b ≠ [])
  | [], _ => by
    constructor
    · intro _ k b hb
      simp at hb
    · intro _
      rfl
  | [a], h => by simp at h
  | [a, t], h => by simp at h
  | a :: t :: m :: rest, h => by
    have h3 : rest.length % 3 = 0 := by
      simp only [List.length_cons] at h
      omega
    have ih := extract_posts_none_iff rest h3
    by_cases hm : m = []
    · subst hm
      constructor
      · intro hc
        simp [extract_posts] at hc
      · intro H
        exact absurd rfl (H 0 [] (by simp))
    · have heq : (extract_posts (a :: t :: m :: rest)).2 = (extract_posts rest).2 := by
        simp [extract_posts, hm]
      rw [heq, ih]
      constructor
      · intro H k b hb
        cases k with
        | zero =>
          have hb' : some m = some b := by simpa using hb
          injection hb' with hb'
          subst hb'
          exact hm
        | succ k' =>
          refine H k' b ?_
          have harith : 3 * (k' + 1) + 2 = 3 * k' + 2 + 1 + 1 + 1 := by ring
          rw [harith] at hb
          simpa using hb
      · intro H k b hb
        refine H (k + 1) b ?_
        have harith : 3 * (k + 1) + 2 = 3 * k + 2 + 1 + 1 + 1 := by ring
        rw [harith]
        simpa using hb

theorem extract_posts_fst_ne_nil (l : List (List Char)) (hne : l ≠ [])
    (h3 : l.length % 3 = 0) (hok : (extract_posts l).2 = none) :
    (extract_posts l).1 ≠ [] := by
  cases l with
  | nil => exact absurd rfl hne
  | cons a l1 =>
    cases l1 with
    | nil => simp at h3
    | cons t l2 =>
      cases l2 with
      | nil => simp at h3
      | cons m rest =>
        by_cases hm : m = []
        · subst hm
          simp [extract_posts] at hok
        · simp [extract_posts, hm]

/-! ### Inversion helpers for `parse_message` -/

theorem message_fields_nil : message_fields [] = [[]] := by decide

theorem message_fields_head_cons (msg tok : List Char)
    (h : (message_fields msg).head? = some tok) :
    ∃ tl, message_fields msg = tok :: tl := by
  cases hfm : message_fields msg with
  | nil => rw [hfm] at h; cases h
  | cons c t =>
    rw [hfm, List.head?_cons] at h
    injection h with h
    subst h
    exact ⟨t, rfl⟩

theorem msg_ne_nil_of_fields_head (msg tok : List Char) (htok : tok ≠ [])
    (h : (message_fields msg).head? = some tok) : msg ≠ [] := by
  intro h0
  subst h0
  rw [message_fields_nil, List.head?_cons] at h
  injection h with h
  exact htok h.symm

theorem parse_message_some_eq (msg tok : List Char) (tl : List (List Char))
    (cmd : CLIENT_COMMANDS) (hne : msg ≠ [])
    (hf : message_fields msg = tok :: tl) (hcmd : kCmdFromStr tok = some cmd) :
    parse_message msg =
      (if cmd = CLIENT_COMMANDS.GET_BOARD then
        { ok := true, error := [], clientCmd := cmd, posts := [],
          filter_author := (tl[0]?).getD [], filter_title := (tl[1]?).getD [] }
      else if cmd = CLIENT_COMMANDS.POST then
        if tl.length = 0 then
          { ok := false, error := str "POST contains no (Author, Title, Message) sets.",
            clientCmd := cmd, posts := [], filter_author := [], filter_title := [] }
        else if tl.length % 3 ≠ 0 then
          { ok := false, error := str "POST requires triples of Author, Title, Message.",
            clientCmd := cmd, posts := [], filter_author := [], filter_title := [] }
        else
          match extract_posts tl with
          | (ps, some e) =>
            { ok := false, error := e, clientCmd := cmd, posts := ps,
              filter_author := [], filter_title := [] }
          | (ps, none) =>
            { ok := true, error := [], clientCmd := cmd, posts := ps,
              filter_author := [], filter_title := [] }
      else if cmd = CLIENT_COMMANDS.QUIT then
        { ok := true, error := [], clientCmd := cmd, posts := [],
          filter_author := [], filter_title := [] }
      else
        { ok := false, error := str "Unhandled command or parsing error.",
          clientCmd := cmd, posts := [], filter_author := [], filter_title := [] }) := by
  unfold parse_message
  rw [if_neg hne, hf]
  dsimp only
  rw [hcmd]

theorem parse_message_none_eq (msg tok : List Char) (tl : List (List Char))
    (hne : msg ≠ []) (hf : message_fields msg = tok :: tl)
    (hcmd : kCmdFromStr tok = none) :
    parse_message msg =
      { ok := false, error := str "Invalid command: " ++ tok,
        clientCmd := CLIENT_COMMANDS.INVALID_COMMAND, posts := [],
        filter_author := [], filter_title := [] } := by
  unfold parse_message
  rw [if_neg hne, hf]
  dsimp only
  rw [hcmd]

theorem parse_message_post_eq (msg : List Char) (tl : List (List Char))
    (hne : msg ≠ []) (hf : message_fields msg = str "POST" :: tl) :
    parse_message msg =
      (if tl.length = 0 then
        { ok := false, error := str "POST contains no (Author, Title, Message) sets.",
          clientCmd := CLIENT_COMMANDS.POST, posts := [],
          filter_author := [], filter_title := [] }
      else if tl.length % 3 ≠ 0 then
        { ok := false, error := str "POST requires triples of Author, Title, Message.",
          clientCmd := CLIENT_COMMANDS.POST, posts := [],
          filter_author := [], filter_title := [] }
      else
        match extract_posts tl with
        | (ps, some e) =>
          { ok := false, error := e, clientCmd := CLIENT_COMMANDS.POST, posts := ps,
            filter_author := [], filter_title := [] }
        | (ps, none) =>
          { ok := true, error := [], clientCmd := CLIENT_COMMANDS.POST, posts := ps,
            filter_author := [], filter_title := [] }) := by
  rw [parse_message_some_eq msg (str "POST") tl CLIENT_COMMANDS.POST hne hf (by decide)]
  rw [if_neg (by decide), if_pos rfl]

theorem parse_message_quit_eq (msg : List Char) (tl : List (List Char))
    (hne : msg ≠ []) (hf : message_fields msg = str "QUIT" :: tl) :
    parse_message msg =
      { ok := true, error := [], clientCmd := CLIENT_COMMANDS.QUIT, posts := [],
        filter_author := [], filter_title := [] } := by
  rw [parse_message_some_eq msg (str "QUIT") tl CLIENT_COMMANDS.QUIT hne hf (by decide)]
  rw [if_neg (by decide), if_neg (by decide), if_pos rfl]

theorem parse_message_unknown_eq (msg tok : List Char) (tl : List (List Char))
    (hne : msg ≠ []) (hf : message_fields msg = tok :: tl)
    (h1 : tok ≠ str "GET_BOARD") (h2 : tok ≠ str "POST")
    (h3 : tok ≠ str "INVALID_COMMAND") (h4 : tok ≠ str "QUIT") :
    parse_message msg =
      { ok := false, error := str "Invalid command: " ++ tok,
        clientCmd := CLIENT_COMMANDS.INVALID_COMMAND, posts := [],
        filter_author := [], filter_title := [] } := by
  refine parse_message_none_eq msg tok tl hne hf ?_
  unfold kCmdFromStr
  rw [if_neg h1, if_neg h2, if_neg h3, if_neg h4]

/-! ### Session-step helpers -/

theorem session_step_not_ok (st : BoardState) (clientId : Nat) (msg : List Char)
    (h : (parse_message msg).ok = false) :
    session_step st clientId msg =
      (str "INVALID_COMMAND" ++ fieldDelimiter ++ fieldDelimiter ++ fieldDelimiter ++
        (parse_message msg).error ++ transmissionTerminator, st, true) := by
  simp only [session_step]
  rw [if_neg (by simp [h])]
  simp only [handle_client_request]
  rw [if_pos h]

theorem session_step_quit (st : BoardState) (clientId : Nat) (msg : List Char)
    (h1 : (parse_message msg).ok = true)
    (h2 : (parse_message msg).clientCmd = CLIENT_COMMANDS.QUIT) :
    session_step st clientId msg =
      (str "QUIT" ++ fieldDelimiter ++ str "SERVER" ++ fieldDelimiter ++ str "BYE!!!" ++
        fieldDelimiter ++ str "Server says: BYE!!!" ++ transmissionTerminator, st, false) := by
  simp only [session_step]
  rw [if_pos ⟨h1, h2⟩]

theorem session_step_post_ok (st : BoardState) (clientId : Nat) (msg : List Char)
    (h1 : (parse_message msg).ok = true)
    (h2 : (parse_message msg).clientCmd = CLIENT_COMMANDS.POST)
    (h3 : (parse_message msg).posts ≠ []) :
    (session_step st clientId msg).1 = build_post_ok := by
  simp only [session_step]
  rw [if_neg (by
    rintro ⟨_, hq⟩
    rw [h2] at hq
    exact (by decide : CLIENT_COMMANDS.POST ≠ CLIENT_COMMANDS.QUIT) hq)]
  simp only [handle_client_request]
  rw [if_neg (by simp [h1]), h2]
  simp only [post_handler]
  rw [if_neg h3]

/-! ### Claim theorems for the parser and the session step -/

/-- C2: for every POST transmission (first flattened field `POST`),
`parse_message` succeeds exactly when the number of fields after the
command token is nonzero, a multiple of three, and every third payload
field (each body) is non-empty. -/
theorem C2_post_shape (msg : List Char)
    (h : (message_fields msg).head? = some (str "POST")) :
    (parse_message msg).ok = true ↔
      ((message_fields msg).tail ≠ [] ∧ (message_fields msg).tail.length % 3 = 0 ∧
       ∀ k b, ((message_fields msg).tail)[3 * k + 2]? = some b → b ≠ []) := by
  obtain ⟨tl, hf⟩ := message_fields_head_cons msg (str "POST") h
  have hne : msg ≠ [] := msg_ne_nil_of_fields_head msg (str "POST") (by decide) h
  rw [hf, List.tail_cons]
  rw [parse_message_post_eq msg tl hne hf]
  by_cases h0 : tl.length = 0
  · rw [if_pos h0]
    have htl : tl = [] := List.eq_nil_of_length_eq_zero h0
    subst htl
    simp
  · rw [if_neg h0]
    have htlne : tl ≠ [] := fun hc => h0 (by rw [hc]; rfl)
    by_cases h3 : tl.length % 3 = 0
    · rw [if_neg (fun hc => hc h3)]
      rcases hext : extract_posts tl with ⟨ps, e⟩
      cases e with
      | none =>
        dsimp only
        constructor
        · intro _
          refine ⟨htlne, h3, ?_⟩
          exact (extract_posts_none_iff tl h3).mp (by rw [hext])
        · intro _
          rfl
      | some err =>
        dsimp only
        constructor
        · intro hc
          cases hc
        · rintro ⟨_, _, Hb⟩
          have := (extract_posts_none_iff tl h3).mpr Hb
          rw [hext] at this
          cases this
    · rw [if_pos h3]
      dsimp only
      constructor
      · intro hc
        cases hc
      · rintro ⟨_, hc, _⟩
        exact absurd hc h3

/-- Witness for C2 at the concrete transmission
`POST}+{Alice}+{Hi}+{hello`. -/
theorem C2_witness :
    (message_fields (str "POST\x7d+\x7bAlice\x7d+\x7bHi\x7d+\x7bhello")).head? =
      some (str "POST") ∧
    ((parse_message (str "POST\x7d+\x7bAlice\x7d+\x7bHi\x7d+\x7bhello")).ok = true ↔
      ((message_fields (str "POST\x7d+\x7bAlice\x7d+\x7bHi\x7d+\x7bhello")).tail ≠ [] ∧
       (message_fields (str "POST\x7d+\x7bAlice\x7d+\x7bHi\x7d+\x7bhello")).tail.length % 3 = 0 ∧
       ∀ k b, ((message_fields (str "POST\x7d+\x7bAlice\x7d+\x7bHi\x7d+\x7bhello")).tail)[3 * k + 2]? =
          some b → b ≠ [])) :=
  ⟨by decide, C2_post_shape (str "POST\x7d+\x7bAlice\x7d+\x7bHi\x7d+\x7bhello") (by decide)⟩

/-- C9: for every transmission whose first flattened field is `QUIT`,
parsing succeeds (any extra fields are ignored), the server sends exactly
`QUIT}+{SERVER}+{BYE!!!}+{Server says: BYE!!!}}&{{`, the board state is
untouched, and the session ends. -/
theorem C9_quit (msg : List Char) (st : BoardState) (clientId : Nat)
    (h : (message_fields msg).head? = some (str "QUIT")) :
    (parse_message msg).ok = true ∧
    (parse_message msg).clientCmd = CLIENT_COMMANDS.QUIT ∧
    session_step st clientId msg =
      (str "QUIT" ++ fieldDelimiter ++ str "SERVER" ++ fieldDelimiter ++ str "BYE!!!" ++
        fieldDelimiter ++ str "Server says: BYE!!!" ++ transmissionTerminator, st, false) := by
  obtain ⟨tl, hf⟩ := message_fields_head_cons msg (str "QUIT") h
  have hne : msg ≠ [] := msg_ne_nil_of_fields_head msg (str "QUIT") (by decide) h
  have hp := parse_message_quit_eq msg tl hne hf
  refine ⟨by rw [hp], by rw [hp], ?_⟩
  exact session_step_quit st clientId msg (by rw [hp]) (by rw [hp])

/-- Witness for C9 at `QUIT}+{extra}+{fields` (extra fields ignored). -/
theorem C9_witness :
    (message_fields (str "QUIT\x7d+\x7bextra\x7d+\x7bfields")).head? = some (str "QUIT") ∧
    ((parse_message (str "QUIT\x7d+\x7bextra\x7d+\x7bfields")).ok = true ∧
     (parse_message (str "QUIT\x7d+\x7bextra\x7d+\x7bfields")).clientCmd = CLIENT_COMMANDS.QUIT ∧
     session_step ⟨[], 0⟩ 7 (str "QUIT\x7d+\x7bextra\x7d+\x7bfields") =
       (str "QUIT" ++ fieldDelimiter ++ str "SERVER" ++ fieldDelimiter ++ str "BYE!!!" ++
         fieldDelimiter ++ str "Server says: BYE!!!" ++ transmissionTerminator, ⟨[], 0⟩, false)) :=
  ⟨by decide, C9_quit (str "QUIT\x7d+\x7bextra\x7d+\x7bfields") ⟨[], 0⟩ 7 (by decide)⟩

/-- Counterexample to C7 as stated: the token `INVALID_COMMAND` is not one
of the recognized client commands GET_BOARD / POST / QUIT, yet the
parser's diagnostic is `Unhandled command or parsing error.` and the
response does not contain `Invalid command: ` at all. -/
theorem C7_counterexample :
    (message_fields (str "INVALID_COMMAND")).head? = some (str "INVALID_COMMAND") ∧
    str "INVALID_COMMAND" ∉ [str "GET_BOARD", str "POST", str "QUIT"] ∧
    (parse_message (str "INVALID_COMMAND")).error =
      str "Unhandled command or parsing error." ∧
    findSub (str "Invalid command: ")
      (session_step ⟨[], 0⟩ 1 (str "INVALID_COMMAND")).1 = none := by
  decide

/-- C7 (amended): for every non-empty transmission whose first flattened
field is none of GET_BOARD, POST, QUIT and INVALID_COMMAND, parse_message
returns an error carrying the offending token, and the server responds
`INVALID_COMMAND}+{}+{}+{Invalid command: <token>}}&{{` without closing
the session. -/
theorem C7_unknown_command (msg tok : List Char) (st : BoardState) (clientId : Nat)
    (hne : msg ≠ [])
    (h : (message_fields msg).head? = some tok)
    (h1 : tok ≠ str "GET_BOARD") (h2 : tok ≠ str "POST")
    (h3 : tok ≠ str "QUIT") (h4 : tok ≠ str "INVALID_COMMAND") :
    (parse_message msg).ok = false ∧
    (parse_message msg).error = str "Invalid command: " ++ tok ∧
    session_step st clientId msg =
      (str "INVALID_COMMAND" ++ fieldDelimiter ++ fieldDelimiter ++ fieldDelimiter ++
        (str "Invalid command: " ++ tok) ++ transmissionTerminator, st, true) := by
  obtain ⟨tl, hf⟩ := message_fields_head_cons msg tok h
  have hp := parse_message_unknown_eq msg tok tl hne hf h1 h2 h4 h3
  refine ⟨by rw [hp], by rw [hp], ?_⟩
  have hstep := session_step_not_ok st clientId msg (by rw [hp])
  rw [hstep, hp]

/-- Witness for C7 (amended) at `FROBNICATE`. -/
theorem C7_witness :
    (str "FROBNICATE" : List Char) ≠ [] ∧
    (message_fields (str "FROBNICATE")).head? = some (str "FROBNICATE") ∧
    ((parse_message (str "FROBNICATE")).ok = false ∧
     (parse_message (str "FROBNICATE")).error = str "Invalid command: " ++ str "FROBNICATE" ∧
     session_step ⟨[], 0⟩ 1 (str "FROBNICATE") =
       (str "INVALID_COMMAND" ++ fieldDelimiter ++ fieldDelimiter ++ fieldDelimiter ++
         (str "Invalid command: " ++ str "FROBNICATE") ++ transmissionTerminator,
        ⟨[], 0⟩, true)) :=
  ⟨by decide, by decide,
    C7_unknown_command (str "FROBNICATE") (str "FROBNICATE") ⟨[], 0⟩ 1
      (by decide) (by decide) (by decide) (by decide) (by decide) (by decide)⟩

/-- Counterexample to C3 as stated: for `POST}+{Alice}+{T}+{` (a POST with
an empty body) the server responds with an INVALID_COMMAND transmission,
not with POST_ERROR. -/
theorem C3_counterexample :
    (message_fields (str "POST\x7d+\x7bAlice\x7d+\x7bT\x7d+\x7b")).head? =
      some (str "POST") ∧
    ((message_fields (str "POST\x7d+\x7bAlice\x7d+\x7bT\x7d+\x7b")).tail)[2]? =
      some ([] : List Char) ∧
    (session_step ⟨[], 0⟩ 1 (str "POST\x7d+\x7bAlice\x7d+\x7bT\x7d+\x7b")).1 =
      str "INVALID_COMMAND\x7d+\x7b\x7d+\x7b\x7d+\x7bPOST message cannot be empty.\x7d\x7d&\x7b\x7b" ∧
    findSub (str "POST_ERROR")
      (session_step ⟨[], 0⟩ 1 (str "POST\x7d+\x7bAlice\x7d+\x7bT\x7d+\x7b")).1 = none ∧
    (session_step ⟨[], 0⟩ 1 (str "POST\x7d+\x7bAlice\x7d+\x7bT\x7d+\x7b")).2.1 = ⟨[], 0⟩ := by
  decide

/-- C3 (amended): for every POST transmission containing at least one empty
body field, the decoder rejects the entire batch (all-or-nothing), the
board state is unchanged (no post appended, `totalMessagesReceived` not
incremented), the session stays open, and the client receives an
`INVALID_COMMAND}+{}+{}+{...` transmission carrying the parse diagnostic
(not `POST_ERROR`). -/
theorem C3_empty_body_rejected (msg : List Char) (st : BoardState) (clientId : Nat)
    (h : (message_fields msg).head? = some (str "POST"))
    (hbody : ∃ k, ((message_fields msg).tail)[3 * k + 2]? = some ([] : List Char)) :
    (parse_message msg).ok = false ∧
    (session_step st clientId msg).2.1 = st ∧
    (session_step st clientId msg).2.2 = true ∧
    str "INVALID_COMMAND" ++ fieldDelimiter ++ fieldDelimiter ++ fieldDelimiter <+:
      (session_step st clientId msg).1 := by
  obtain ⟨tl, hf⟩ := message_fields_head_cons msg (str "POST") h
  have hne : msg ≠ [] := msg_ne_nil_of_fields_head msg (str "POST") (by decide) h
  obtain ⟨k, hk⟩ := hbody
  rw [hf, List.tail_cons] at hk
  have hok : (parse_message msg).ok = false := by
    rw [parse_message_post_eq msg tl hne hf]
    by_cases h0 : tl.length = 0
    · rw [if_pos h0]
    · rw [if_neg h0]
      by_cases h3 : tl.length % 3 = 0
      · rw [if_neg (fun hc => hc h3)]
        rcases hext : extract_posts tl with ⟨ps, e⟩
        cases e with
        | none =>
          have := (extract_posts_none_iff tl h3).mp (by rw [hext]) k [] hk
          exact absurd rfl this
        | some err => rfl
      · rw [if_pos h3]
  have hstep := session_step_not_ok st clientId msg hok
  refine ⟨hok, by rw [hstep], by rw [hstep], ?_⟩
  rw [hstep]
  have hshape :
      str "INVALID_COMMAND" ++ fieldDelimiter ++ fieldDelimiter ++ fieldDelimiter ++
        (parse_message msg).error ++ transmissionTerminator =
      (str "INVALID_COMMAND" ++ fieldDelimiter ++ fieldDelimiter ++ fieldDelimiter) ++
        ((parse_message msg).error ++ transmissionTerminator) := by
    simp [List.append_assoc]
  rw [hshape]
  exact List.prefix_append _ _

/-- Witness for C3 (amended) at `POST}+{Alice}+{T}+{`. -/
theorem C3_witness :
    (message_fields (str "POST\x7d+\x7bAlice\x7d+\x7bT\x7d+\x7b")).head? =
      some (str "POST") ∧
    (∃ k, ((message_fields (str "POST\x7d+\x7bAlice\x7d+\x7bT\x7d+\x7b")).tail)[3 * k + 2]? =
      some ([] : List Char)) ∧
    ((parse_message (str "POST\x7d+\x7bAlice\x7d+\x7bT\x7d+\x7b")).ok = false ∧
     (session_step ⟨[], 5⟩ 2 (str "POST\x7d+\x7bAlice\x7d+\x7bT\x7d+\x7b")).2.1 = ⟨[], 5⟩ ∧
     (session_step ⟨[], 5⟩ 2 (str "POST\x7d+\x7bAlice\x7d+\x7bT\x7d+\x7b")).2.2 = true ∧
     str "INVALID_COMMAND" ++ fieldDelimiter ++ fieldDelimiter ++ fieldDelimiter <+:
       (session_step ⟨[], 5⟩ 2 (str "POST\x7d+\x7bAlice\x7d+\x7bT\x7d+\x7b")).1) :=
  ⟨by decide, ⟨0, by decide⟩,
    C3_empty_body_rejected (str "POST\x7d+\x7bAlice\x7d+\x7bT\x7d+\x7b") ⟨[], 5⟩ 2
      (by decide) ⟨0, by decide⟩⟩

/-- C10: every `ParseResult` returned with `ok = true` and command POST has
a non-empty `posts` vector, and consequently the session dispatch always
answers such a message with `POST_OK}+{}+{}+{}}&{{` — the empty-batch
rejection branch of `post_handler` is unreachable from the dispatch path. -/
theorem C10_post_ok_nonempty (msg : List Char) (st : BoardState) (clientId : Nat)
    (h1 : (parse_message msg).ok = true)
    (h2 : (parse_message msg).clientCmd = CLIENT_COMMANDS.POST) :
    (parse_message msg).posts ≠ [] ∧
    (session_step st clientId msg).1 = build_post_ok := by
  have hposts : (parse_message msg).posts ≠ [] := by
    by_cases hne : msg = []
    · subst hne
      simp [parse_message] at h1
    · cases hfm : message_fields msg with
      | nil =>
        have hp : parse_message msg =
            { ok := false, error := str "Malformed message: no fields found.",
              clientCmd := CLIENT_COMMANDS.INVALID_COMMAND, posts := [],
              filter_author := [], filter_title := [] } := by
          unfold parse_message
          rw [if_neg hne, hfm]
        rw [hp] at h1
        cases h1
      | cons tok tl =>
        cases hcmd : kCmdFromStr tok with
        | none =>
          have hp := parse_message_none_eq msg tok tl hne hfm hcmd
          rw [hp] at h1
          cases h1
        | some cmd =>
          have hp := parse_message_some_eq msg tok tl cmd hne hfm hcmd
          cases cmd with
          | GET_BOARD =>
            rw [if_pos rfl] at hp
            rw [hp] at h2
            have h2' : CLIENT_COMMANDS.GET_BOARD = CLIENT_COMMANDS.POST := h2
            exact absurd h2' (by decide)
          | POST =>
            rw [if_neg (by decide), if_pos rfl] at hp
            by_cases h0 : tl.length = 0
            · rw [if_pos h0] at hp
              rw [hp] at h1
              cases h1
            · rw [if_neg h0] at hp
              by_cases h3 : tl.length % 3 = 0
              · rw [if_neg (fun hc => hc h3)] at hp
                rcases hext : extract_posts tl with ⟨ps, e⟩
                rw [hext] at hp
                cases e with
                | some err =>
                  rw [hp] at h1
                  cases h1
                | none =>
                  rw [hp]
                  have hps : ps = (extract_posts tl).1 := by rw [hext]
                  have htlne : tl ≠ [] := fun hc => h0 (by rw [hc]; rfl)
                  have := extract_posts_fst_ne_nil tl htlne h3 (by rw [hext])
                  rw [← hps] at this
                  exact this
              · rw [if_pos h3] at hp
                rw [hp] at h1
                cases h1
          | QUIT =>
            rw [if_neg (by decide), if_neg (by decide), if_pos rfl] at hp
            rw [hp] at h2
            have h2' : CLIENT_COMMANDS.QUIT = CLIENT_COMMANDS.POST := h2
            exact absurd h2' (by decide)
          | INVALID_COMMAND =>
            rw [if_neg (by decide), if_neg (by decide), if_neg (by decide)] at hp
            rw [hp] at h1
            cases h1
  exact ⟨hposts, session_step_post_ok st clientId msg h1 h2 hposts⟩

/-- Witness for C10 at `POST}+{a}+{t}+{b`. -/
theorem C10_witness :
    (parse_message (str "POST\x7d+\x7ba\x7d+\x7bt\x7d+\x7bb")).ok = true ∧
    (parse_message (str "POST\x7d+\x7ba\x7d+\x7bt\x7d+\x7bb")).clientCmd = CLIENT_COMMANDS.POST ∧
    ((parse_message (str "POST\x7d+\x7ba\x7d+\x7bt\x7d+\x7bb")).posts ≠ [] ∧
     (session_step ⟨[], 0⟩ 3 (str "POST\x7d+\x7ba\x7d+\x7bt\x7d+\x7bb")).1 = build_post_ok) :=
  ⟨by decide, by decide,
    C10_post_ok_nonempty (str "POST\x7d+\x7ba\x7d+\x7bt\x7d+\x7bb") ⟨[], 0⟩ 3
      (by decide) (by decide)⟩

/-- C5: whenever the receive buffer contains the terminator,
`read_message_until_terminator` returns the bytes preceding the first
occurrence as the completed message, removes exactly those bytes plus the
terminator from the buffer, and keeps the residual bytes for the next
call. -/
theorem C5_reassembler (messageBuffer : List Char) (p : Nat)
    (h : findSub transmissionTerminator messageBuffer = some p) :
    read_message_until_terminator messageBuffer transmissionTerminator =
      some (messageBuffer.take p,
        messageBuffer.drop (p + transmissionTerminator.length)) ∧
    messageBuffer =
      messageBuffer.take p ++ transmissionTerminator ++
        messageBuffer.drop (p + transmissionTerminator.length) ∧
    (∀ j < p, ¬ transmissionTerminator <+: messageBuffer.drop j) := by
  obtain ⟨h1, h2⟩ := findSub_eq_some _ _ _ h
  refine ⟨?_, ?_, h2⟩
  · unfold read_message_until_terminator
    rw [h]
  · have h3 : transmissionTerminator ++
        (messageBuffer.drop p).drop transmissionTerminator.length =
        messageBuffer.drop p := List.prefix_iff_eq_append.mp h1
    have h4 : (messageBuffer.drop p).drop transmissionTerminator.length =
        messageBuffer.drop (p + transmissionTerminator.length) := by
      rw [List.drop_drop, Nat.add_comm]
    calc messageBuffer = messageBuffer.take p ++ messageBuffer.drop p :=
        (List.take_append_drop p messageBuffer).symm
      _ = messageBuffer.take p ++ (transmissionTerminator ++
            messageBuffer.drop (p + transmissionTerminator.length)) := by
          rw [← h3, h4]
      _ = messageBuffer.take p ++ transmissionTerminator ++
            messageBuffer.drop (p + transmissionTerminator.length) := by
          rw [List.append_assoc]

/-- Witness for C5 at a buffer holding `QUIT}}&{{` plus residual bytes. -/
theorem C5_witness :
    findSub transmissionTerminator (str "QUIT\x7d\x7d&\x7b\x7bresidue") = some 4 ∧
    (read_message_until_terminator (str "QUIT\x7d\x7d&\x7b\x7bresidue") transmissionTerminator =
      some ((str "QUIT\x7d\x7d&\x7b\x7bresidue").take 4,
        (str "QUIT\x7d\x7d&\x7b\x7bresidue").drop (4 + transmissionTerminator.length)) ∧
     str "QUIT\x7d\x7d&\x7b\x7bresidue" =
       (str "QUIT\x7d\x7d&\x7b\x7bresidue").take 4 ++ transmissionTerminator ++
         (str "QUIT\x7d\x7d&\x7b\x7bresidue").drop (4 + transmissionTerminator.length) ∧
     (∀ j < 4, ¬ transmissionTerminator <+: (str "QUIT\x7d\x7d&\x7b\x7bresidue").drop j)) :=
  ⟨by decide, C5_reassembler (str "QUIT\x7d\x7d&\x7b\x7bresidue") 4 (by decide)⟩

/-- C6: `logEvent` preserves the bound of 100 records on the event log, and
when a record is appended to a full log the evicted record is the oldest
one (the front of the FIFO). -/
theorem C6_log_bounded_fifo (eventLog : List ServerEvent)
    (timestamp event_type message raw_message : List Char)
    (h : eventLog.length ≤ 100) :
    (logEvent eventLog timestamp event_type message raw_message).length ≤ 100 ∧
    (eventLog.length = 100 →
      logEvent eventLog timestamp event_type message raw_message =
        eventLog.drop 1 ++
          [{ timestamp := timestamp, event_type := event_type, message := message,
             raw_message := raw_message }]) := by
  constructor
  · unfold logEvent
    by_cases hc : 100 <
        (eventLog ++ [ServerEvent.mk timestamp event_type message raw_message]).length
    · rw [if_pos hc]
      simp only [List.length_drop, List.length_append, List.length_cons, List.length_nil]
      omega
    · rw [if_neg hc]
      simp only [List.length_append, List.length_cons, List.length_nil] at hc ⊢
      omega
  · intro h100
    unfold logEvent
    rw [if_pos (by simp [h100])]
    rw [List.drop_append_eq_append_drop]
    simp [h100]

/-- Witness for C6 at a full log of 100 blank records. -/
theorem C6_witness :
    (List.replicate 100 (ServerEvent.mk [] [] [] [])).length ≤ 100 ∧
    ((logEvent (List.replicate 100 (ServerEvent.mk [] [] [] []))
        (str "12:00:00") (str "POST") (str "msg") []).length ≤ 100 ∧
     ((List.replicate 100 (ServerEvent.mk [] [] [] [])).length = 100 →
       logEvent (List.replicate 100 (ServerEvent.mk [] [] [] []))
           (str "12:00:00") (str "POST") (str "msg") [] =
         (List.replicate 100 (ServerEvent.mk [] [] [] [])).drop 1 ++
           [{ timestamp := str "12:00:00", event_type := str "POST",
              message := str "msg", raw_message := [] }])) :=
  ⟨by simp, C6_log_bounded_fifo (List.replicate 100 (ServerEvent.mk [] [] [] []))
    (str "12:00:00") (str "POST") (str "msg") [] (by simp)⟩

/-- C1 (code behavior): for the batched client transmission
`POST}+{A}+{T1}+{B1}#{POST}+{B}+{T2}+{B2}}&{{`, whose second triple is
introduced by a repeated `POST` token after the record separator, the
reassembler extracts the framed bytes, but flattening leaves the repeated
`POST` token as an ordinary payload field: the payload has seven fields,
the multiple-of-three shape check fails, the decoder rejects the batch,
the board state is unchanged, and the server answers with an
INVALID_COMMAND transmission — not with `POST_OK}+{}+{}+{}}&{{`. -/
theorem C1_batched_post_rejected :
    read_message_until_terminator
      (str "POST\x7d+\x7bA\x7d+\x7bT1\x7d+\x7bB1\x7d#\x7bPOST\x7d+\x7bB\x7d+\x7bT2\x7d+\x7bB2\x7d\x7d&\x7b\x7b")
      transmissionTerminator =
      some (str "POST\x7d+\x7bA\x7d+\x7bT1\x7d+\x7bB1\x7d#\x7bPOST\x7d+\x7bB\x7d+\x7bT2\x7d+\x7bB2", []) ∧
    message_fields (str "POST\x7d+\x7bA\x7d+\x7bT1\x7d+\x7bB1\x7d#\x7bPOST\x7d+\x7bB\x7d+\x7bT2\x7d+\x7bB2") =
      [str "POST", str "A", str "T1", str "B1", str "POST", str "B", str "T2", str "B2"] ∧
    (parse_message (str "POST\x7d+\x7bA\x7d+\x7bT1\x7d+\x7bB1\x7d#\x7bPOST\x7d+\x7bB\x7d+\x7bT2\x7d+\x7bB2")).ok = false ∧
    (parse_message (str "POST\x7d+\x7bA\x7d+\x7bT1\x7d+\x7bB1\x7d#\x7bPOST\x7d+\x7bB\x7d+\x7bT2\x7d+\x7bB2")).error =
      str "POST requires triples of Author, Title, Message." ∧
    session_step ⟨[], 0⟩ 1
      (str "POST\x7d+\x7bA\x7d+\x7bT1\x7d+\x7bB1\x7d#\x7bPOST\x7d+\x7bB\x7d+\x7bT2\x7d+\x7bB2") =
      (str "INVALID_COMMAND\x7d+\x7b\x7d+\x7b\x7d+\x7bPOST requires triples of Author, Title, Message.\x7d\x7d&\x7b\x7b",
       ⟨[], 0⟩, true) ∧
    (session_step ⟨[], 0⟩ 1
      (str "POST\x7d+\x7bA\x7d+\x7bT1\x7d+\x7bB1\x7d#\x7bPOST\x7d+\x7bB\x7d+\x7bT2\x7d+\x7bB2")).1 ≠
      build_post_ok := by
  decide
